import Mathlib

/-
Shallow embedding of the music_gen preprocessor (src/preprocess.py) and
proofs of the specification claims about it.

Modelling conventions:
  * a pitch is its MIDI number (Int); a music21 Key is its tonic's MIDI
    number (implicit octave 4, so note class C is 60) plus its mode string;
  * a chord extracted by `chordify` is its pitch list plus its duration in
    quarter-note units (exact rationals);
  * the opaque music21 labelling primitives (`pitchedCommonName`,
    `romanNumeralFromChord(..., Key("C")).figure`) are parameters of the
    encoder (`ChordAPI`): the code treats them as black boxes;
  * a pypianoroll track is its piano-roll matrix, a list of time-step rows
    of 128 rational entries; a Multitrack is a list of tracks;
  * a `convert_path_to_dict` call in the roll modes ends in a normal
    return, a soft skip (diagnostic printed, `None` returned), or a raised
    Python error (`PRResult`).
-/

namespace MusicGen

/-- A file path, as the string music21/pathlib sees. -/
abbrev MPath := String

/-- A chord produced by the chordify pass: pitches (MIDI numbers) and a
duration in quarter-note units. -/
structure Chord where
  pitches : List Int
  duration : ℚ
deriving DecidableEq, Repr

/-- A music21 analyzed key: tonic as a MIDI number with implicit octave 4
(note class C is 60) and the mode string. -/
structure KeyM where
  tonicMidi : Int
  mode : String
deriving DecidableEq, Repr

/-- `m21.key.Key("C")`: C major. -/
def cMajorKey : KeyM := ⟨60, "major"⟩

/-- `chord.closedPosition(forceOctave=4, inPlace=True)`: the bass keeps its
pitch class but is forced to octave 4, and every note is brought within the
octave above the bass. The duration is untouched. -/
def closedPosition4 (c : Chord) : Chord :=
  match c.pitches with
  | [] => c
  | bass :: _ =>
    let newBass : Int := bass % 12 + 60
    { pitches := c.pitches.map (fun p => newBass + (p - bass) % 12),
      duration := c.duration }

/-- `Preprocessor.chord_to_base_n`: sum over the chord's notes of
`2 ** (note.pitch.midi - 60)`, in exact arithmetic (ℚ, since the exponent
may be negative). -/
def chord_to_base_n (c : Chord) : ℚ :=
  c.pitches.foldl (fun acc p => acc + (2 : ℚ) ^ (p - 60)) 0

/-- The opaque music21 labelling primitives the encoder calls. -/
structure ChordAPI where
  pitchedCommonName : Chord → String
  romanLabel : Chord → String

/-- Common skeleton of the three chordify branches of
`Preprocessor.convert_path_to_dict`: iterate the chords, emitting
(window copy, label, duration of the closed-position chord), then slide the
window with `pop(0)` / `append(label)`. The branches differ only in how the
label is computed and in the sentinel filling the initial window. -/
def convertChordifyAux {α : Type} (labelOf : Chord → α) (window : List α) :
    List Chord → List (List α) × List α × List ℚ
  | [] => ([], [], [])
  | c :: rest =>
    let lbl := labelOf c
    let r := convertChordifyAux labelOf (window.drop 1 ++ [lbl]) rest
    (window :: r.1, lbl :: r.2.1, (closedPosition4 c).duration :: r.2.2)

/-- The `chordify_string` branch: the chord is put in closed position first
and `pitchedCommonName` is read off the normalized chord; window sentinel is
"START". -/
def chordify_string (api : ChordAPI) (lookback : Nat) (chords : List Chord) :
    List (List String) × List String × List ℚ :=
  convertChordifyAux (fun c => api.pitchedCommonName (closedPosition4 c))
    (List.replicate lookback "START") chords

/-- The `chordify_int` branch: the chord is put in closed position first and
encoded by `chord_to_base_n`; window sentinel is 0. -/
def chordify_int (lookback : Nat) (chords : List Chord) :
    List (List ℚ) × List ℚ × List ℚ :=
  convertChordifyAux (fun c => chord_to_base_n (closedPosition4 c))
    (List.replicate lookback (0 : ℚ)) chords

/-- The `chordify_roman` branch: the Roman-numeral figure is computed from
the chord as it stands, BEFORE `closedPosition` runs (source lines 162-163);
window sentinel is "START". -/
def chordify_roman (api : ChordAPI) (lookback : Nat) (chords : List Chord) :
    List (List String) × List String × List ℚ :=
  convertChordifyAux (fun c => api.romanLabel c)
    (List.replicate lookback "START") chords

/-- What music21 exposes of a parsed piece for filtering: the analyzed
key's mode and the number of time signatures `getTimeSignatures` returns. -/
structure PieceInfo where
  mode : String
  numTimeSignatures : Nat
deriving DecidableEq, Repr

namespace Preprocessor

/-- `Preprocessor.filter`: drop a path when the analyzed mode is not
"major", drop it when there is more than one time signature, keep it
otherwise, preserving order. `parse` stands for `m21.converter.parse`
followed by the two inspections. -/
def filter (parse : MPath → PieceInfo) : List MPath → List MPath
  | [] => []
  | p :: rest =>
    if (parse p).mode ≠ "major" then filter parse rest
    else if 1 < (parse p).numTimeSignatures then filter parse rest
    else p :: filter parse rest

end Preprocessor

/-- Message of the FileNotFoundError raised when the folder is missing. -/
def dirNotFoundMsg : String := "Specificed folder path does not exist"

/-- Message of the FileNotFoundError raised when a surname matched nothing. -/
def noFilesMsg : String :=
  "No valid files were found containing the specificed surname. Check your spelling"

namespace Preprocessor

/-- `Preprocessor.collect`: error if the folder is not a directory; glob the
candidates; with a surname, keep the matching candidates and error if none
match (before the major/time-signature filter runs); finally store
`filter` of the candidate list. `folderIsDir` stands for
`self.folder_path.is_dir()`, `candidates` for the glob result, `matchFn s p`
for `p.match(s + "*.mid")`. -/
def collect (folderIsDir : Bool) (candidates : List MPath)
    (matchFn : String → MPath → Bool) (parse : MPath → PieceInfo)
    (surname : Option String) : Except String (List MPath) :=
  if !folderIsDir then .error dirNotFoundMsg
  else
    match surname with
    | none => .ok (filter parse candidates)
    | some s =>
      let filepath_array := candidates.filter (matchFn s)
      if filepath_array.length ≤ 0 then .error noFilesMsg
      else .ok (filter parse filepath_array)

end Preprocessor

/-- Outcome of a `convert_path_to_dict` call in the piano-roll modes. -/
inductive PRResult (α : Type) where
  | ok (val : α)
  | skipped (msg : String)
  | crash (err : String)
deriving DecidableEq, Repr

/-- The all-zero sentinel row `np.zeros(128)`. -/
def zeros128 : List ℚ := List.replicate 128 0

/-- `track.binarize()` then `.astype(float)`: positive velocities become 1,
the rest 0. -/
def binarizeRows (rows : List (List ℚ)) : List (List ℚ) :=
  rows.map (fun r => r.map (fun v => if 0 < v then (1 : ℚ) else 0))

/-- The diagnostic printed for a multi-track file. -/
def multiTrackMsg (path : String) : String :=
  "The song " ++ path ++ " has more than one track. Exiting..."

/-- `Multitrack.transpose(k)` on one track: the roll shifted along the
pitch axis by `k` semitones. -/
def shiftRow (k : Int) (row : List ℚ) : List ℚ :=
  (List.range row.length).map (fun j =>
    if (j : Int) - k < 0 then 0 else row.getD ((j : Int) - k).toNat 0)

/-- Pitch-shift every time step of a track's roll. -/
def transposeRows (k : Int) (rows : List (List ℚ)) : List (List ℚ) :=
  rows.map (shiftRow k)

namespace Preprocessor

/-- The `pianoroll` branch of `convert_path_to_dict`: skip (print and
return `None`) when the file has more than one track, else take track 0,
optionally binarize, and pair the roll with a copy shifted down one step
behind an all-zero first row (`np.vstack([np.zeros(128), roll[:-1]])`).
`tracks` is `pypianoroll.read(...).set_resolution(...).tracks` as
piano-roll matrices. -/
def pianorollBranch (binarize : Bool) (path : String)
    (tracks : List (List (List ℚ))) :
    PRResult (List (List ℚ) × List (List ℚ)) :=
  if 1 < tracks.length then .skipped (multiTrackMsg path)
  else
    match tracks with
    | [] => .crash "IndexError"
    | t :: _ =>
      let roll := if binarize then binarizeRows t else t
      .ok (zeros128 :: roll.dropLast, roll)

/-- The `full_pianoroll` branch: skip on a multi-track file; then evaluate
`full_roll.transpose(num_semitones)` — which raises UnboundLocalError when
the transposition prelude never assigned `num_semitones` — take track 0,
optionally binarize, and build the same shifted input/target pair. -/
def fullPianorollBranch (num_semitones : Option Int) (binarize : Bool)
    (path : String) (tracks : List (List (List ℚ))) :
    PRResult (List (List ℚ) × List (List ℚ)) :=
  if 1 < tracks.length then .skipped (multiTrackMsg path)
  else
    match num_semitones with
    | none => .crash "UnboundLocalError: num_semitones"
    | some k =>
      match tracks with
      | [] => .crash "IndexError"
      | t :: _ =>
        let full_roll := transposeRows k t
        let roll := if binarize then binarizeRows full_roll else full_roll
        .ok (zeros128 :: roll.dropLast, roll)

end Preprocessor

/-- The transposition prelude of `convert_path_to_dict` (lines 115-118):
`num_semitones` is assigned exactly when `transpose` is set and the
analyzed key differs from `m21.key.Key("C")` (C major); the interval's
semitone count from the tonic (implicit octave 4) up to C4 is
`60 - tonicMidi`. -/
def transposeInterval (transpose : Bool) (key : KeyM) : Option Int :=
  if transpose ∧ key ≠ cMajorKey then some (60 - key.tonicMidi) else none

/-- Effect of the prelude on the score's pitched events:
`music_data.transpose(i, inPlace=True)` shifts every pitch by the
interval when the branch ran. -/
def applyTranspose (transpose : Bool) (key : KeyM) (pitches : List Int) :
    List Int :=
  match transposeInterval transpose key with
  | some k => pitches.map (fun p => p + k)
  | none => pitches

/-- Modelled from the spec, for comparison in C9: "if enabled and the
analyzed key is not already the reference tonic, compute the interval from
the detected tonic to the reference tonic [C] and apply it to every pitched
event"; a piece whose tonic is already note class C is left alone. -/
def specTranspose (key : KeyM) (pitches : List Int) : List Int :=
  if key.tonicMidi ≠ 60 then pitches.map (fun p => p + (60 - key.tonicMidi))
  else pitches

namespace Preprocessor

/-- The `full_pianoroll` mode of `convert_path_to_dict` end to end:
the transposition prelude binds (or fails to bind) `num_semitones`, then
the branch body runs. -/
def convertFullPianoroll (transpose : Bool) (key : KeyM) (binarize : Bool)
    (path : String) (tracks : List (List (List ℚ))) :
    PRResult (List (List ℚ) × List (List ℚ)) :=
  fullPianorollBranch (transposeInterval transpose key) binarize path tracks

end Preprocessor

/-- The admission predicate `Preprocessor.filter` implements: analyzed mode
is major and there is at most one time signature. -/
def keepPred (parse : MPath → PieceInfo) (p : MPath) : Bool :=
  decide ((parse p).mode = "major" ∧ (parse p).numTimeSignatures ≤ 1)

/-- `Preprocessor.filter` is `List.filter` with the admission predicate. -/
theorem filter_eq (parse : MPath → PieceInfo) (paths : List MPath) :
    Preprocessor.filter parse paths = paths.filter (keepPred parse) := by
  induction paths with
  | nil => rfl
  | cons p rest ih =>
    by_cases h1 : (parse p).mode = "major"
    · by_cases h2 : (parse p).numTimeSignatures ≤ 1
      · have h2' : ¬ 1 < (parse p).numTimeSignatures := Nat.not_lt.mpr h2
        simp [Preprocessor.filter, List.filter_cons, keepPred, h1, h2, h2', ih]
      · have h2' : 1 < (parse p).numTimeSignatures := Nat.lt_of_not_le h2
        simp [Preprocessor.filter, List.filter_cons, keepPred, h1, h2, h2', ih]
    · simp [Preprocessor.filter, List.filter_cons, keepPred, h1, ih]

/-- A parse outcome with an analyzed major mode and zero time signatures. -/
def parse0 : MPath → PieceInfo := fun _ => ⟨"major", 0⟩

/-- C3 counterexample: a major piece for which `getTimeSignatures` yields an
empty result is kept by `filter` although it does not have exactly one time
signature (the code tests `> 1`, i.e. at most one, not exactly one). -/
theorem C3_counterexample :
    "a.mid" ∈ Preprocessor.filter parse0 ["a.mid"] ∧
      (parse0 "a.mid").numTimeSignatures ≠ 1 := by
  decide

/-- C3 (amended): a path is kept by `Preprocessor.filter` iff it occurs in
the input, its analyzed key mode is major, and it has AT MOST one time
signature. -/
theorem C3_filter_admission (parse : MPath → PieceInfo) (paths : List MPath)
    (p : MPath) :
    p ∈ Preprocessor.filter parse paths ↔
      p ∈ paths ∧ (parse p).mode = "major" ∧
        (parse p).numTimeSignatures ≤ 1 := by
  rw [filter_eq, List.mem_filter]
  simp [keepPred]

/-- C10: `Preprocessor.filter` returns an order-preserving subsequence of
its input: it equals `List.filter` with the admission predicate, is a
sublist of the input (hence preserves relative order and adds nothing), and
never increases any path's multiplicity. -/
theorem C10_filter_order_preserving (parse : MPath → PieceInfo)
    (paths : List MPath) :
    Preprocessor.filter parse paths = paths.filter (keepPred parse) ∧
    (Preprocessor.filter parse paths).Sublist paths ∧
    ∀ p, (Preprocessor.filter parse paths).count p ≤ paths.count p := by
  have hs : (Preprocessor.filter parse paths).Sublist paths := by
    rw [filter_eq]; exact List.filter_sublist paths
  exact ⟨filter_eq parse paths, hs, fun p => hs.count_le p⟩

/-- C4: `collect` raises the directory error iff the folder is not a
directory; it raises the no-matching-files error iff the folder exists and
a present surname matches no candidate (checked before the
major/time-signature filter); when the folder exists and a present surname
matches at least one candidate it returns normally with the filtered list —
in particular an empty list, without error, when the filter rejects all
matches. -/
theorem C4_collect_error_conditions (folderIsDir : Bool)
    (candidates : List MPath) (matchFn : String → MPath → Bool)
    (parse : MPath → PieceInfo) (surname : Option String) :
    (Preprocessor.collect folderIsDir candidates matchFn parse surname =
        .error dirNotFoundMsg ↔ folderIsDir = false) ∧
    (Preprocessor.collect folderIsDir candidates matchFn parse surname =
        .error noFilesMsg ↔
      folderIsDir = true ∧
        ∃ s, surname = some s ∧ candidates.filter (matchFn s) = []) ∧
    (∀ s, surname = some s → folderIsDir = true →
      candidates.filter (matchFn s) ≠ [] →
      Preprocessor.collect folderIsDir candidates matchFn parse surname =
        .ok (Preprocessor.filter parse (candidates.filter (matchFn s)))) ∧
    (∀ s, surname = some s → folderIsDir = true →
      candidates.filter (matchFn s) ≠ [] →
      Preprocessor.filter parse (candidates.filter (matchFn s)) = [] →
      Preprocessor.collect folderIsDir candidates matchFn parse surname =
        .ok []) := by
  cases folderIsDir with
  | false =>
    refine ⟨by simp [Preprocessor.collect], ?_, ?_, ?_⟩
    · simp [Preprocessor.collect, dirNotFoundMsg, noFilesMsg]
    · intro s hs hdir; simp at hdir
    · intro s hs hdir; simp at hdir
  | true =>
    cases surname with
    | none =>
      refine ⟨by simp [Preprocessor.collect], by simp [Preprocessor.collect],
        ?_, ?_⟩
      · intro s hs; simp at hs
      · intro s hs; simp at hs
    | some s0 =>
      by_cases hf : (candidates.filter (matchFn s0)).length ≤ 0
      · have hf' : candidates.filter (matchFn s0) = [] :=
          List.length_eq_zero.mp (Nat.le_zero.mp hf)
        refine ⟨?_, ?_, ?_, ?_⟩
        · simp [Preprocessor.collect, hf, dirNotFoundMsg, noFilesMsg]
        · have hL : Preprocessor.collect true candidates matchFn parse
              (some s0) = .error noFilesMsg := by
            simp [Preprocessor.collect, hf]
          exact iff_of_true hL ⟨rfl, s0, rfl, hf'⟩
        · intro s hs _ hne
          injection hs with hs; subst hs
          exact absurd hf' hne
        · intro s hs _ hne
          injection hs with hs; subst hs
          exact absurd hf' hne
      · have hL : Preprocessor.collect true candidates matchFn parse
            (some s0) =
            .ok (Preprocessor.filter parse (candidates.filter (matchFn s0))) := by
          simp [Preprocessor.collect, hf]
        have hne : candidates.filter (matchFn s0) ≠ [] := by
          intro h; exact hf (by simp [h])
        refine ⟨?_, ?_, ?_, ?_⟩
        · simp [hL]
        · refine iff_of_false (by simp [hL]) ?_
          rintro ⟨-, s, hs, hempty⟩
          injection hs with hs; subst hs
          exact hne hempty
        · intro s hs _ _
          injection hs with hs; subst hs
          exact hL
        · intro s hs _ _ hempty
          injection hs with hs; subst hs
          rw [hL, hempty]

/-- A parse outcome whose analyzed mode is minor. -/
def parseMinor : MPath → PieceInfo := fun _ => ⟨"minor", 1⟩

/-- A surname matcher that accepts every path. -/
def matchAll : String → MPath → Bool := fun _ _ => true

/-- C4 witness: an existing folder, one candidate matching the surname,
rejected later by the filter: `collect` returns an empty selection without
error. -/
theorem C4_witness :
    Preprocessor.collect true ["x.mid"] matchAll parseMinor (some "x") =
      .ok [] :=
  (C4_collect_error_conditions true ["x.mid"] matchAll parseMinor
    (some "x")).2.2.2 "x" rfl rfl (by decide) (by decide)

/-- A single-note chord on B3 (MIDI 59), one pitch below middle C. -/
def b3Chord : Chord := ⟨[59], 1⟩

/-- C5: `chord_to_base_n` on a note below MIDI 60 contributes
`2 ** (negative)`, so the emitted label is the non-integer 1/2: the code
violates the claim that every emitted label is an integer. -/
theorem C5_fractional_label :
    chord_to_base_n b3Chord = 1 / 2 ∧
      ∀ n : ℤ, (n : ℚ) ≠ chord_to_base_n b3Chord := by
  have h : chord_to_base_n b3Chord = 1 / 2 := by
    norm_num [chord_to_base_n, b3Chord]
  refine ⟨h, ?_⟩
  intro n hn
  rw [h] at hn
  have h2 : ((2 * n : ℤ) : ℚ) = ((1 : ℤ) : ℚ) := by
    push_cast
    rw [hn]
    norm_num
  have h3 : (2 * n : ℤ) = 1 := by exact_mod_cast h2
  omega

/-- C7: in both roll modes, a file with more than one track is soft-skipped
with the multi-track diagnostic: no error is raised and no tensors are
produced. -/
theorem C7_multitrack_soft_skip (binarize : Bool) (path : String)
    (ns : Option Int) (tracks : List (List (List ℚ)))
    (h : 1 < tracks.length) :
    Preprocessor.pianorollBranch binarize path tracks =
      .skipped (multiTrackMsg path) ∧
    Preprocessor.fullPianorollBranch ns binarize path tracks =
      .skipped (multiTrackMsg path) := by
  constructor
  · simp [Preprocessor.pianorollBranch, h]
  · simp [Preprocessor.fullPianorollBranch, h]

/-- C7 witness: a two-track file is skipped in both modes. -/
theorem C7_witness :
    Preprocessor.pianorollBranch true "duet.mid" [[], []] =
      .skipped (multiTrackMsg "duet.mid") ∧
    Preprocessor.fullPianorollBranch none true "duet.mid" [[], []] =
      .skipped (multiTrackMsg "duet.mid") :=
  C7_multitrack_soft_skip true "duet.mid" none [[], []] (by decide)

/-- A one-track roll with a single silent time step. -/
def oneTrack0 : List (List ℚ) := [List.replicate 128 0]

/-- C8 counterexample: a single-track `full_pianoroll` call with transpose
disabled reaches the use of `num_semitones` without it ever being assigned
and dies with an unbound-variable error, contrary to the claim. -/
theorem C8_counterexample :
    Preprocessor.convertFullPianoroll false cMajorKey true "s.mid"
      [oneTrack0] = .crash "UnboundLocalError: num_semitones" := by
  rfl

/-- C8 (amended): `num_semitones` is assigned iff the transposition branch
ran (transpose enabled and analyzed key ≠ C major); on a single-track file,
`full_pianoroll` crashes with the unbound-variable error exactly when it
was not assigned, and returns normally when it was. -/
theorem C8_num_semitones_assignment (transpose : Bool) (key : KeyM)
    (binarize : Bool) (path : String) (t : List (List ℚ)) :
    (transposeInterval transpose key = none ↔
      transpose = false ∨ key = cMajorKey) ∧
    (transposeInterval transpose key = none →
      Preprocessor.convertFullPianoroll transpose key binarize path [t] =
        .crash "UnboundLocalError: num_semitones") ∧
    (∀ k, transposeInterval transpose key = some k →
      Preprocessor.convertFullPianoroll transpose key binarize path [t] =
        .ok (zeros128 ::
              (if binarize then binarizeRows (transposeRows k t)
                else transposeRows k t).dropLast,
             if binarize then binarizeRows (transposeRows k t)
               else transposeRows k t)) := by
  refine ⟨?_, ?_, ?_⟩
  · cases transpose with
    | false => simp [transposeInterval]
    | true =>
      by_cases hk : key = cMajorKey <;> simp [transposeInterval, hk]
  · intro h
    simp [Preprocessor.convertFullPianoroll, Preprocessor.fullPianorollBranch, h]
  · intro k hk
    simp [Preprocessor.convertFullPianoroll, Preprocessor.fullPianorollBranch, hk]

/-- C8 witness: with transpose enabled and an analyzed key of C minor (a key
unequal to C major but with tonic C), `num_semitones` is assigned 0 and the
single-track call returns normally. -/
theorem C8_witness :
    Preprocessor.convertFullPianoroll true ⟨60, "minor"⟩ true "cm.mid"
      [oneTrack0] =
      .ok (zeros128 :: (binarizeRows (transposeRows 0 oneTrack0)).dropLast,
           binarizeRows (transposeRows 0 oneTrack0)) := by
  have h := (C8_num_semitones_assignment true ⟨60, "minor"⟩ true "cm.mid"
    oneTrack0).2.2 0 (by decide)
  simpa using h

/-- C9: with transposition enabled, the observable effect of the
transposition prelude on the score's pitched events coincides with the
spec's policy: shift every pitch by the interval from the detected tonic up
to C exactly when the tonic is not already note class C; a piece whose
tonic is C — of any mode — keeps its pitches unchanged. -/
theorem C9_transpose_iff_tonic_not_C (key : KeyM) (pitches : List Int) :
    applyTranspose true key pitches = specTranspose key pitches := by
  unfold applyTranspose transposeInterval specTranspose
  by_cases hk : key = cMajorKey
  · subst hk
    simp [cMajorKey]
  · simp only [true_and, hk, ne_eq, not_false_eq_true, if_true]
    by_cases ht : key.tonicMidi = 60
    · simp [ht]
    · simp [ht]

/-- Closed-position normalization never touches the duration. -/
theorem closedPosition4_duration (c : Chord) :
    (closedPosition4 c).duration = c.duration := by
  cases c with
  | mk ps d => cases ps <;> rfl

/-- One emitted window per chord event. -/
theorem convertChordifyAux_data_length {α : Type} (f : Chord → α)
    (w : List α) (chords : List Chord) :
    (convertChordifyAux f w chords).1.length = chords.length := by
  induction chords generalizing w with
  | nil => rfl
  | cons c rest ih => simp [convertChordifyAux, ih]

/-- The emitted label sequence is the label function mapped over the
chords in their temporal order. -/
theorem convertChordifyAux_labels {α : Type} (f : Chord → α)
    (w : List α) (chords : List Chord) :
    (convertChordifyAux f w chords).2.1 = chords.map f := by
  induction chords generalizing w with
  | nil => rfl
  | cons c rest ih => simp [convertChordifyAux, ih]

/-- The emitted duration sequence is each chord's own duration: the
closed-position pass leaves durations alone. -/
theorem convertChordifyAux_durations {α : Type} (f : Chord → α)
    (w : List α) (chords : List Chord) :
    (convertChordifyAux f w chords).2.2 = chords.map Chord.duration := by
  induction chords generalizing w with
  | nil => rfl
  | cons c rest ih => simp [convertChordifyAux, ih, closedPosition4_duration]

/-- Shape of the window emitted for event `i`: the last `|w|` entries of
the initial window followed by the first `i` labels. -/
theorem convertChordifyAux_window {α : Type} (f : Chord → α)
    (chords : List Chord) (w : List α) (hw : w ≠ []) (i : Nat)
    (hi : i < chords.length) :
    (convertChordifyAux f w chords).1.getD i [] =
      (w ++ (chords.map f).take i).drop i := by
  induction chords generalizing w i with
  | nil => simp at hi
  | cons c rest ih =>
    cases i with
    | zero => simp [convertChordifyAux]
    | succ j =>
      have hj : j < rest.length := Nat.lt_of_succ_lt_succ hi
      obtain ⟨b, w', rfl⟩ : ∃ b w', w = b :: w' := by
        cases w with
        | nil => exact absurd rfl hw
        | cons b w' => exact ⟨b, w', rfl⟩
      simp only [convertChordifyAux, List.getD_cons_succ]
      rw [ih ((b :: w').drop 1 ++ [f c]) (by simp) j hj]
      simp [List.append_assoc]

/-- Dropping `i` of the window-plus-`i`-labels list leaves `|w|` entries. -/
theorem append_take_drop_length {α : Type} (w T : List α) (i : Nat)
    (hi : i ≤ T.length) :
    ((w ++ T.take i).drop i).length = w.length := by
  simp [Nat.min_eq_left hi]

/-- The emitted window, rearranged as sentinel padding followed by the
event's `i-L..i-1` predecessors. -/
theorem replicate_append_take_drop {α : Type} (s : α) (L i : Nat)
    (T : List α) :
    (List.replicate L s ++ T.take i).drop i =
      List.replicate (L - i) s ++ (T.take i).drop (i - L) := by
  rw [List.drop_append_eq_append_drop, List.drop_replicate,
    List.length_replicate]

/-- The window invariant for any chordify branch: with a lookback of
`L ≥ 1`, the window of event `i` has exactly `L` entries and consists of
the labels of events `i-L..i-1`, left-padded with the sentinel. -/
theorem window_invariant_generic {α : Type} (f : Chord → α) (s : α)
    (L : Nat) (hL : 1 ≤ L) (chords : List Chord) (i : Nat)
    (hi : i < chords.length) :
    ((convertChordifyAux f (List.replicate L s) chords).1.getD i []).length
        = L ∧
    (convertChordifyAux f (List.replicate L s) chords).1.getD i [] =
      List.replicate (L - i) s ++ (((chords.map f).take i).drop (i - L)) := by
  have hw : List.replicate L s ≠ [] := by
    intro h
    have := congrArg List.length h
    simp at this
    omega
  have hform := convertChordifyAux_window f chords (List.replicate L s) hw i hi
  constructor
  · rw [hform]
    have hi' : i ≤ (chords.map f).length := by
      rw [List.length_map]; omega
    rw [append_take_drop_length _ _ _ hi', List.length_replicate]
  · rw [hform, replicate_append_take_drop]

/-- C1: in all three chordify modes, with configured lookback `L ≥ 1`,
every emitted row's window has exactly `L` entries; the window of event `i`
equals the emitted labels of events `i-L..i-1`, left-padded with the mode's
sentinel ("START", resp. 0) where those indices are negative; and the first
event's window is exactly `L` copies of the sentinel. -/
theorem C1_chordify_window_invariant (api : ChordAPI) (L : Nat)
    (hL : 1 ≤ L) (chords : List Chord) (i : Nat) (hi : i < chords.length) :
    (((chordify_string api L chords).1.getD i []).length = L ∧
      (chordify_string api L chords).1.getD i [] =
        List.replicate (L - i) "START" ++
          (((chordify_string api L chords).2.1.take i).drop (i - L))) ∧
    (((chordify_int L chords).1.getD i []).length = L ∧
      (chordify_int L chords).1.getD i [] =
        List.replicate (L - i) (0 : ℚ) ++
          (((chordify_int L chords).2.1.take i).drop (i - L))) ∧
    (((chordify_roman api L chords).1.getD i []).length = L ∧
      (chordify_roman api L chords).1.getD i [] =
        List.replicate (L - i) "START" ++
          (((chordify_roman api L chords).2.1.take i).drop (i - L))) ∧
    (chordify_string api L chords).1.getD 0 [] = List.replicate L "START" ∧
    (chordify_int L chords).1.getD 0 [] = List.replicate L (0 : ℚ) ∧
    (chordify_roman api L chords).1.getD 0 [] = List.replicate L "START" := by
  have h0 : 0 < chords.length := Nat.lt_of_le_of_lt (Nat.zero_le i) hi
  have h1 := window_invariant_generic
    (fun c => api.pitchedCommonName (closedPosition4 c)) "START" L hL
    chords i hi
  have h2 := window_invariant_generic
    (fun c => chord_to_base_n (closedPosition4 c)) (0 : ℚ) L hL chords i hi
  have h3 := window_invariant_generic (fun c => api.romanLabel c) "START" L
    hL chords i hi
  have g1 := window_invariant_generic
    (fun c => api.pitchedCommonName (closedPosition4 c)) "START" L hL
    chords 0 h0
  have g2 := window_invariant_generic
    (fun c => chord_to_base_n (closedPosition4 c)) (0 : ℚ) L hL chords 0 h0
  have g3 := window_invariant_generic (fun c => api.romanLabel c) "START" L
    hL chords 0 h0
  have lab1 : (chordify_string api L chords).2.1 =
      chords.map (fun c => api.pitchedCommonName (closedPosition4 c)) :=
    convertChordifyAux_labels _ _ _
  have lab2 : (chordify_int L chords).2.1 =
      chords.map (fun c => chord_to_base_n (closedPosition4 c)) :=
    convertChordifyAux_labels _ _ _
  have lab3 : (chordify_roman api L chords).2.1 =
      chords.map (fun c => api.romanLabel c) :=
    convertChordifyAux_labels _ _ _
  refine ⟨⟨h1.1, ?_⟩, ⟨h2.1, ?_⟩, ⟨h3.1, ?_⟩, ?_, ?_, ?_⟩
  · rw [lab1]; exact h1.2
  · rw [lab2]; exact h2.2
  · rw [lab3]; exact h3.2
  · have := g1.2; simpa using this
  · have := g2.2; simpa using this
  · have := g3.2; simpa using this

/-- A labelling function that distinguishes a chord in octave 5 from its
closed-position image in octave 4 (music21's labellers receive the chord's
full pitch spelling, so they may do the same). -/
def api0 : ChordAPI :=
  ⟨fun c => if c.pitches = [72] then "C5" else "other",
   fun c => if c.pitches = [72] then "C5" else "other"⟩

/-- A single-note chord on C5 (MIDI 72). -/
def c72 : Chord := ⟨[72], 1⟩

/-- A single-note chord on C4 (MIDI 60). -/
def c60 : Chord := ⟨[60], 2⟩

/-- C1 witness: with lookback 2 and two chords, the window of event 1 has
exactly 2 entries. -/
theorem C1_witness :
    ((chordify_string api0 2 [c72, c60]).1.getD 1 []).length = 2 :=
  (C1_chordify_window_invariant api0 2 (by decide) [c72, c60] 1
    (by decide)).1.1

/-- C2 (amended): in the string and int modes the chord is normalized to
closed voicing anchored at octave 4 before its label is computed; in the
roman mode the Roman-numeral label is computed from the chord BEFORE the
closed-position normalization; in every mode the emitted duration is the
chord's own duration, unaffected by the normalization. -/
theorem C2_normalization_order (api : ChordAPI) (L : Nat)
    (chords : List Chord) :
    (chordify_string api L chords).2.1 =
      chords.map (fun c => api.pitchedCommonName (closedPosition4 c)) ∧
    (chordify_int L chords).2.1 =
      chords.map (fun c => chord_to_base_n (closedPosition4 c)) ∧
    (chordify_roman api L chords).2.1 =
      chords.map (fun c => api.romanLabel c) ∧
    (chordify_string api L chords).2.2 = chords.map Chord.duration ∧
    (chordify_int L chords).2.2 = chords.map Chord.duration ∧
    (chordify_roman api L chords).2.2 = chords.map Chord.duration :=
  ⟨convertChordifyAux_labels _ _ _, convertChordifyAux_labels _ _ _,
   convertChordifyAux_labels _ _ _, convertChordifyAux_durations _ _ _,
   convertChordifyAux_durations _ _ _, convertChordifyAux_durations _ _ _⟩

/-- C2 counterexample: in `chordify_roman` the emitted label is NOT in
general the label of the closed-position chord — for a labeller sensitive
to octave placement and the chord C5, the code emits the label of the raw
chord, which differs from the closed-position label. -/
theorem C2_counterexample :
    (chordify_roman api0 1 [c72]).2.1 ≠
      [c72].map (fun c => api0.romanLabel (closedPosition4 c)) := by
  decide

/-- Binarization keeps the number of time steps. -/
theorem binarizeRows_length (rows : List (List ℚ)) :
    (binarizeRows rows).length = rows.length := by
  simp [binarizeRows]

/-- Binarization keeps each row's width. -/
theorem binarizeRows_rows (rows : List (List ℚ)) (h : ∀ r ∈ rows, r.length = 128) :
    ∀ r ∈ binarizeRows rows, r.length = 128 := by
  intro r hr
  obtain ⟨r0, hr0, rfl⟩ := List.mem_map.mp hr
  simpa using h r0 hr0

/-- C6 (amended): in `pianoroll` mode, for every single-track file whose
roll has at least one time step (rows of 128 pitch columns), the branch
returns an input and a target of identical shape, row 0 of the input is the
all-zero sentinel, and every later input row `t` equals target row `t-1`.
(An empty roll instead yields a one-row input against an empty target.) -/
theorem C6_pianoroll_shift (binarize : Bool) (path : String)
    (t : List (List ℚ)) (hT : t ≠ []) (hrows : ∀ r ∈ t, r.length = 128) :
    ∃ inputs target,
      Preprocessor.pianorollBranch binarize path [t] = .ok (inputs, target) ∧
      inputs.length = target.length ∧
      (∀ r ∈ inputs, r.length = 128) ∧
      (∀ r ∈ target, r.length = 128) ∧
      inputs.getD 0 [] = zeros128 ∧
      (∀ i, 1 ≤ i → i < inputs.length →
        inputs.getD i [] = target.getD (i - 1) []) := by
  set R : List (List ℚ) := if binarize then binarizeRows t else t with hR
  have hRlen : R.length = t.length := by
    rw [hR]; cases binarize <;> simp [binarizeRows_length]
  have hRne : R ≠ [] := by
    intro h
    apply hT
    have := congrArg List.length h
    rw [hRlen] at this
    exact List.length_eq_zero.mp this
  have hRrows : ∀ r ∈ R, r.length = 128 := by
    rw [hR]; cases binarize
    · simpa using hrows
    · simpa using binarizeRows_rows t hrows
  refine ⟨zeros128 :: R.dropLast, R, ?_, ?_, ?_, ?_, ?_, ?_⟩
  · simp [Preprocessor.pianorollBranch, hR]
  · have : 0 < R.length := List.length_pos.mpr hRne
    simp only [List.length_cons, List.length_dropLast]
    omega
  · intro r hr
    rcases List.mem_cons.mp hr with h | h
    · subst h; simp [zeros128]
    · exact hRrows r ((List.dropLast_sublist R).subset h)
  · exact hRrows
  · exact List.getD_cons_zero
  · intro i h1 h2
    obtain ⟨j, rfl⟩ : ∃ j, i = j + 1 := ⟨i - 1, by omega⟩
    rw [List.getD_cons_succ]
    simp only [List.length_cons, List.length_dropLast] at h2
    have hj : j < R.dropLast.length := by
      simp only [List.length_dropLast]; omega
    have hj' : j < R.length := by
      simp only [List.length_dropLast] at hj; omega
    simp only [Nat.add_sub_cancel]
    rw [List.getD_eq_getElem _ _ hj, List.getD_eq_getElem _ _ hj']
    exact List.getElem_dropLast R j hj

/-- C6 counterexample: a single-track file whose roll has zero time steps
yields an input with one (all-zero) row but an empty target — the shapes
are not identical, so the claim as stated fails on the empty roll. -/
theorem C6_counterexample :
    Preprocessor.pianorollBranch true "empty.mid" [[]] =
      .ok ([zeros128], []) ∧
    [zeros128].length ≠ ([] : List (List ℚ)).length := by
  constructor
  · rfl
  · decide

/-- C6 witness: a single-track one-step roll gives input and target of the
same shape. -/
theorem C6_witness :
    ∃ inputs target,
      Preprocessor.pianorollBranch true "w.mid" [[List.replicate 128 1]] =
        .ok (inputs, target) ∧ inputs.length = target.length := by
  obtain ⟨ins, tgt, hok, hlen, -⟩ :=
    C6_pianoroll_shift true "w.mid" [List.replicate 128 (1 : ℚ)] (by simp)
      (by intro r hr; rw [List.mem_singleton] at hr; subst hr; simp)
  exact ⟨ins, tgt, hok, hlen⟩

end MusicGen
